import Mathlib

/-!
Verification of the peak-threads worker framework: shallow embedding of the
shared-memory synchronization primitives (Mutex, ConditionVariable, Semaphore,
Barrier), the allocator (`make`), the typed `Address`, the (de)hydration
registry, the worker dispatcher's error replies and graceful-close path, and
the ThreadPool scheduler strategy, with theorems checking the specification.

JavaScript machine-integer conventions used throughout: shared words are
`Int32Array` cells, so stores wrap to 32-bit two's complement (`toInt32`);
bitwise operators convert operands with ToUint32/ToInt32.
-/

/-- ToUint32: wrap an integer to the range [0, 2^32). -/
def toUint32 (n : Int) : Int := n % (2 ^ 32)

/-- ToInt32: wrap an integer to 32-bit two's complement, range [-2^31, 2^31).
Every store into an `Int32Array` cell goes through this. -/
def toInt32 (n : Int) : Int := (n + 2 ^ 31) % (2 ^ 32) - 2 ^ 31

/-- JavaScript bitwise AND: both operands converted modulo 2^32, the 32-bit
AND taken, result reinterpreted as signed. -/
def jsAnd (a b : Int) : Int :=
  toInt32 (Int.ofNat ((toUint32 a).toNat &&& (toUint32 b).toNat))

/-- JavaScript bitwise NOT: for every JS number, `~a = -ToInt32(a) - 1`. -/
def jsNot (a : Int) : Int := -(toInt32 a) - 1

namespace Mutex

/-- Mutex state constants (src/mutex.ts): the tri-state word. -/
def unlocked : Int := 0

/-- The word value meaning the mutex is held with no waiters published. -/
def locked : Int := 1

/-- The word value meaning the mutex is held and waiters may exist. -/
def contended : Int := 2

/-- Observable effect of one `Mutex.unlock()` call (src/mutex.ts):
the final value of the int32 state word, the value stored by the conditional
`atomicStore` if it ran, and how many waiters were notified. -/
structure UnlockEffect where
  word : Int
  stored : Option Int
  notified : Nat
  deriving Repr, DecidableEq

/-- `Mutex.unlock()` from src/mutex.ts:
`if (this.addr.atomicSub() !== Mutex.locked) { this.addr.atomicStore(Mutex.unlocked); this.addr.atomicNotifyOne() }`.
`atomicSub()` subtracts 1 from the int32 word and returns the prior value. -/
def unlock (s : Int) : UnlockEffect :=
  let prior := s
  let afterSub := toInt32 (s - 1)
  if prior ≠ locked then
    { word := unlocked, stored := some unlocked, notified := 1 }
  else
    { word := afterSub, stored := none, notified := 0 }

end Mutex

/-- Claim C1: for every Mutex state word, `unlock()` atomically subtracts 1;
exactly when the prior value was not LOCKED (1) it then stores UNLOCKED (0)
and notifies one waiter, and when the prior value was LOCKED it performs no
store and no notify, leaving the decremented word. -/
theorem mutex_unlock_stores_and_notifies_iff_prior_not_locked :
    ∀ s : Int,
      (((Mutex.unlock s).stored = some Mutex.unlocked ∧ (Mutex.unlock s).notified = 1)
        ↔ s ≠ Mutex.locked)
      ∧ ((Mutex.unlock s).stored = none ↔ s = Mutex.locked)
      ∧ ((Mutex.unlock s).stored = none → (Mutex.unlock s).notified = 0
          ∧ (Mutex.unlock s).word = toInt32 (s - 1))
      ∧ (Mutex.unlock Mutex.contended).stored = some Mutex.unlocked
      ∧ (Mutex.unlock Mutex.locked).word = Mutex.unlocked := by
  intro s
  by_cases hs : s = Mutex.locked
  · subst hs
    refine ⟨?_, ?_, ?_, ?_, ?_⟩ <;> simp [Mutex.unlock] <;> decide
  · refine ⟨?_, ?_, ?_, ?_, ?_⟩ <;> simp [Mutex.unlock, hs] <;> decide

/-- Closed-form check of claim C1 at concrete inputs, discharging its
conditional parts: unlocking from CONTENDED stores and notifies, unlocking
from LOCKED does neither. -/
theorem mutex_unlock_stores_and_notifies_iff_prior_not_locked_witness :
    (Mutex.unlock 2).stored = some 0 ∧ (Mutex.unlock 2).notified = 1
      ∧ (Mutex.unlock 1).stored = none ∧ (Mutex.unlock 1).notified = 0
      ∧ (Mutex.unlock 1).word = toInt32 (1 - 1) := by
  have h2 := mutex_unlock_stores_and_notifies_iff_prior_not_locked 2
  have h1 := mutex_unlock_stores_and_notifies_iff_prior_not_locked 1
  refine ⟨?_, ?_, ?_, ?_, ?_⟩
  · exact (h2.1.mpr (by decide)).1
  · exact (h2.1.mpr (by decide)).2
  · exact h1.2.1.mpr rfl
  · exact (h1.2.2.1 (h1.2.1.mpr rfl)).1
  · exact (h1.2.2.1 (h1.2.1.mpr rfl)).2

namespace ThreadPool

/-- A live thread as seen by the scheduler strategy: only its pending-request
count is consulted (`numPendingRequests()` in src/threadPool.ts). `tid`
distinguishes threads with equal load. -/
structure PoolThread where
  tid : Nat
  numPendingRequests : Nat
  deriving Repr, DecidableEq

/-- The outcomes of a scheduler strategy: a chosen thread, the request to
grow the pool, or JS `null` ("wait and retry"). -/
inductive SchedChoice where
  | thread (t : PoolThread)
  | grow
  | null
  deriving Repr, DecidableEq

/-- One step of the minimum-search loop in the default strategy
(src/threadPool.ts lines 112-117): keep the incumbent unless a strictly
smaller pending count appears. -/
def minStep (acc : Nat × PoolThread) (t : PoolThread) : Nat × PoolThread :=
  if t.numPendingRequests < acc.1 then (t.numPendingRequests, t) else acc

/-- The default scheduler strategy of src/threadPool.ts lines 102-124:
empty list handled first, then the linear minimum scan seeded with the first
thread, then `'grow'` when growth is allowed and even the least-loaded thread
is busy, else the least-loaded thread. -/
def schedulerStrategy (threads : List PoolThread) (canGrow : Bool) : SchedChoice :=
  match threads with
  | [] => if canGrow then .grow else .null
  | t0 :: rest =>
    let acc := rest.foldl minStep (t0.numPendingRequests, t0)
    if canGrow = true ∧ 0 < acc.1 then .grow else .thread acc.2

theorem foldl_minStep_invariant (l : List PoolThread) :
    ∀ acc : Nat × PoolThread, acc.1 = acc.2.numPendingRequests →
      (l.foldl minStep acc).1 = (l.foldl minStep acc).2.numPendingRequests := by
  induction l with
  | nil => intro acc h; simpa using h
  | cons t rest ih =>
    intro acc h
    simp only [List.foldl_cons]
    apply ih
    by_cases hlt : t.numPendingRequests < acc.1
    · simp [minStep, hlt]
    · simpa [minStep, hlt] using h

theorem foldl_minStep_mem (l : List PoolThread) :
    ∀ acc : Nat × PoolThread,
      (l.foldl minStep acc).2 = acc.2 ∨ (l.foldl minStep acc).2 ∈ l := by
  induction l with
  | nil => intro acc; simp
  | cons t rest ih =>
    intro acc
    simp only [List.foldl_cons]
    rcases ih (minStep acc t) with h | h
    · by_cases hlt : t.numPendingRequests < acc.1
      · right
        rw [h]
        simp [minStep, hlt]
      · left
        rw [h]
        simp [minStep, hlt]
    · right
      exact List.mem_cons_of_mem _ h

theorem foldl_minStep_le (l : List PoolThread) :
    ∀ acc : Nat × PoolThread,
      (l.foldl minStep acc).1 ≤ acc.1
        ∧ ∀ t ∈ l, (l.foldl minStep acc).1 ≤ t.numPendingRequests := by
  induction l with
  | nil => intro acc; simp
  | cons t rest ih =>
    intro acc
    simp only [List.foldl_cons]
    have hstep : (minStep acc t).1 ≤ acc.1 ∧ (minStep acc t).1 ≤ t.numPendingRequests := by
      by_cases hlt : t.numPendingRequests < acc.1
      · simp [minStep, hlt]; omega
      · simp [minStep, hlt]; omega
    refine ⟨le_trans (ih (minStep acc t)).1 hstep.1, ?_⟩
    intro u hu
    rcases List.mem_cons.mp hu with h | h
    · rw [h]
      exact le_trans (ih (minStep acc t)).1 hstep.2
    · exact (ih (minStep acc t)).2 u h

end ThreadPool

/-- Claim C9: the default scheduler strategy returns `null` exactly when the
live-thread list is empty and growth is not allowed; returns `'grow'` exactly
when the list is empty and growth is allowed, or growth is allowed and every
thread is busy (`numPendingRequests > 0`); and otherwise returns a member of
the list whose `numPendingRequests` is minimal. -/
theorem threadPool_default_strategy_characterization :
    ∀ (threads : List ThreadPool.PoolThread) (canGrow : Bool),
      (ThreadPool.schedulerStrategy threads canGrow = .null
        ↔ threads = [] ∧ canGrow = false)
      ∧ (ThreadPool.schedulerStrategy threads canGrow = .grow
        ↔ ((threads = [] ∧ canGrow = true)
            ∨ (canGrow = true ∧ ∀ t ∈ threads, 0 < t.numPendingRequests)))
      ∧ (∀ t, ThreadPool.schedulerStrategy threads canGrow = .thread t →
          t ∈ threads ∧ ∀ u ∈ threads, t.numPendingRequests ≤ u.numPendingRequests) := by
  intro threads canGrow
  match threads with
  | [] =>
    cases canGrow <;> simp [ThreadPool.schedulerStrategy]
  | t0 :: rest =>
    have hinv := ThreadPool.foldl_minStep_invariant rest (t0.numPendingRequests, t0) rfl
    have hmem := ThreadPool.foldl_minStep_mem rest (t0.numPendingRequests, t0)
    have hle := ThreadPool.foldl_minStep_le rest (t0.numPendingRequests, t0)
    set acc := rest.foldl ThreadPool.minStep (t0.numPendingRequests, t0) with hacc
    refine ⟨?_, ?_, ?_⟩
    · by_cases hg : canGrow = true ∧ 0 < acc.1 <;>
        simp [ThreadPool.schedulerStrategy, ← hacc, hg]
    · constructor
      · intro h
        by_cases hg : canGrow = true ∧ 0 < acc.1
        · right
          refine ⟨hg.1, ?_⟩
          intro t ht
          rcases List.mem_cons.mp ht with h' | h'
          · rw [h']
            exact lt_of_lt_of_le hg.2 hle.1
          · exact lt_of_lt_of_le hg.2 (hle.2 t h')
        · simp [ThreadPool.schedulerStrategy, ← hacc, hg] at h
      · intro h
        rcases h with ⟨hnil, _⟩ | ⟨hg, hall⟩
        · exact absurd hnil (by simp)
        · have hpos : 0 < acc.1 := by
            rcases hmem with hm | hm
            · rw [hinv, hm]
              exact hall t0 (List.mem_cons_self _ _)
            · rw [hinv]
              exact hall acc.2 (List.mem_cons_of_mem _ hm)
          simp [ThreadPool.schedulerStrategy, ← hacc, hg, hpos]
    · intro t ht
      by_cases hg : canGrow = true ∧ 0 < acc.1
      · simp [ThreadPool.schedulerStrategy, ← hacc, hg] at ht
      · simp [ThreadPool.schedulerStrategy, ← hacc, hg] at ht
        subst ht
        constructor
        · rcases hmem with hm | hm
          · rw [hm]; exact List.mem_cons_self _ _
          · exact List.mem_cons_of_mem _ hm
        · intro u hu
          rw [← hinv]
          rcases List.mem_cons.mp hu with h' | h'
          · subst h'; exact hle.1
          · exact hle.2 u h'

/-- Closed-form check of claim C9 at a concrete input: with threads of loads
0 and 3 and growth disallowed, the strategy picks the thread with load 0 and
it is minimal. -/
theorem threadPool_default_strategy_characterization_witness :
    ThreadPool.schedulerStrategy
        [⟨1, 0⟩, ⟨2, 3⟩] false = .thread ⟨1, 0⟩
      ∧ (⟨1, 0⟩ : ThreadPool.PoolThread) ∈ [⟨1, 0⟩, ⟨2, 3⟩]
      ∧ ∀ u ∈ [(⟨1, 0⟩ : ThreadPool.PoolThread), ⟨2, 3⟩],
          (0 : Nat) ≤ u.numPendingRequests := by
  have h := (threadPool_default_strategy_characterization [⟨1, 0⟩, ⟨2, 3⟩] false).2.2
    ⟨1, 0⟩ (by decide)
  exact ⟨by decide, h.1, h.2⟩

namespace Address

/-- Errors an Address operation can raise: the class's own explicit
bounds-check throw (src/memory.ts: "Out of bounds access detected!" /
"OUT OF BOUNDS!"), versus a RangeError raised later by the platform
primitive the method delegates to (TypedArray.prototype.set / Atomics)
when the effective index is outside the backing array. -/
inductive JsErr where
  | outOfBounds
  | rangeError
  deriving Repr, DecidableEq

/-- An `Address<Int32Array>`: backing typed array contents, the address's
base offset `indx`, and its element count `cnt` (src/memory.ts lines 24-43). -/
structure Addr where
  mem : List Int
  indx : Nat
  cnt : Nat
  deriving Repr, DecidableEq

/-- `TypedArray.prototype.at(k)`: a negative `k` counts from the end
(`length + k`); any resulting index outside `[0, length)` yields
`undefined` (`none`) rather than an error. -/
def jsAt (l : List Int) (k : Int) : Option Int :=
  let n : Int := if k < 0 then (l.length : Int) + k else k
  if 0 ≤ n ∧ n < (l.length : Int) then l.get? n.toNat else none

/-- `Address.get(index)` (src/memory.ts lines 72-77):
`if (index < this.cnt) return this.mem.at(this.indx + index); throw OOB`. -/
def get (a : Addr) (index : Int) : Except JsErr (Option Int) :=
  if index < (a.cnt : Int) then .ok (jsAt a.mem ((a.indx : Int) + index))
  else .error .outOfBounds

/-- `Address.set(value, index)` (src/memory.ts lines 84-89):
`if (index < this.cnt) return this.mem.set([value], this.indx + index); throw OOB`.
`TypedArray.set` raises a RangeError when the target offset is negative or
runs past the end of the backing array. -/
def set (a : Addr) (value : Int) (index : Int) : Except JsErr (List Int) :=
  if index < (a.cnt : Int) then
    let off : Int := (a.indx : Int) + index
    if 0 ≤ off ∧ off + 1 ≤ (a.mem.length : Int) then
      .ok (a.mem.set off.toNat (toInt32 value))
    else .error .rangeError
  else .error .outOfBounds

/-- `Address.atomicCmpExch(expected, replacement, index)` (src/memory.ts
lines 233-243): `if (index >= this.cnt) throw OOB`, then delegate to
`Atomics.compareExchange(mem, indx + index, ...)`, which returns the prior
value and raises a RangeError when the effective index is outside the array. -/
def atomicCmpExch (a : Addr) (expected replacement : Int) (index : Int) :
    Except JsErr (Int × List Int) :=
  if (a.cnt : Int) ≤ index then .error .outOfBounds
  else
    let off : Int := (a.indx : Int) + index
    if 0 ≤ off ∧ off < (a.mem.length : Int) then
      let old := a.mem.getD off.toNat 0
      .ok (old,
        if old = toInt32 expected then a.mem.set off.toNat (toInt32 replacement)
        else a.mem)
    else .error .rangeError

end Address

/-- Claim C10: Address bounds checks test only the upper bound — `get`,
`set` and the atomic operations raise the class's out-of-bounds error exactly
when the index is at least the element count, so every negative index passes
the check; in particular `get` with a negative index delegates to
`TypedArray.at` and can silently read an element from the end of the backing
array, as `get(-1)` on a 1-element Address over `[10, 20, 30]` reading `30`
shows. -/
theorem address_bounds_check_upper_only :
    ∀ (a : Address.Addr) (i : Int),
      (Address.get a i = .error .outOfBounds ↔ (a.cnt : Int) ≤ i)
      ∧ (∀ v, Address.set a v i = .error .outOfBounds ↔ (a.cnt : Int) ≤ i)
      ∧ (∀ e r, Address.atomicCmpExch a e r i = .error .outOfBounds
          ↔ (a.cnt : Int) ≤ i)
      ∧ (i < 0 → Address.get a i = .ok (Address.jsAt a.mem ((a.indx : Int) + i)))
      ∧ Address.get ⟨[10, 20, 30], 0, 1⟩ (-1) = .ok (some 30) := by
  intro a i
  refine ⟨?_, ?_, ?_, ?_, ?_⟩
  · rcases lt_or_le i (a.cnt : Int) with h | h
    · simp only [Address.get]
      rw [if_pos h]
      exact iff_of_false (by simp) (not_le.mpr h)
    · simp only [Address.get]
      rw [if_neg (not_lt.mpr h)]
      exact iff_of_true rfl h
  · intro v
    rcases lt_or_le i (a.cnt : Int) with h | h
    · constructor
      · intro hc
        exfalso
        by_cases hr : 0 ≤ (a.indx : Int) + i ∧ (a.indx : Int) + i + 1 ≤ (a.mem.length : Int) <;>
          simp [Address.set, h, hr] at hc
      · intro hc
        exact absurd hc (not_le.mpr h)
    · simp only [Address.set]
      rw [if_neg (not_lt.mpr h)]
      exact iff_of_true rfl h
  · intro e r
    rcases lt_or_le i (a.cnt : Int) with h | h
    · constructor
      · intro hc
        exfalso
        by_cases hr : 0 ≤ (a.indx : Int) + i ∧ (a.indx : Int) + i < (a.mem.length : Int) <;>
          simp [Address.atomicCmpExch, not_le.mpr h, hr] at hc
      · intro hc
        exact absurd hc (not_le.mpr h)
    · simp only [Address.atomicCmpExch]
      rw [if_pos h]
      exact iff_of_true rfl h
  · intro hneg
    have h : i < (a.cnt : Int) := by omega
    simp [Address.get, h]
  · rfl

/-- Closed-form check of claim C10 at concrete inputs, discharging the
negative-index part: `get(-2)` on a 1-element Address over `[10, 20, 30]`
passes the bounds check and reads the second element from the end. -/
theorem address_bounds_check_upper_only_witness :
    Address.get ⟨[10, 20, 30], 0, 1⟩ (-2)
      = .ok (Address.jsAt [10, 20, 30] ((0 : Int) + (-2)))
      ∧ Address.get ⟨[10, 20, 30], 0, 1⟩ (-2) = .ok (some 20) := by
  refine ⟨(address_bounds_check_upper_only ⟨[10, 20, 30], 0, 1⟩ (-2)).2.2.2.1 (by decide), ?_⟩
  rfl

namespace Make

/-- Scalar element tags accepted by `make`'s ELEMENT_LAYOUT switch
(src/memory.ts lines 421-457). -/
inductive Tag where
  | int8 | int16 | int32 | int64
  | uint8 | uint8Clamped | uint16 | uint32 | uint64
  | f32 | f64
  deriving Repr, DecidableEq

/-- `BYTES_PER_ELEMENT` of the typed-array class chosen for each tag. -/
def BYTES_PER_ELEMENT : Tag → Nat
  | .int8 => 1 | .uint8 => 1 | .uint8Clamped => 1
  | .int16 => 2 | .uint16 => 2
  | .int32 => 4 | .uint32 => 4 | .f32 => 4
  | .int64 => 8 | .uint64 => 8 | .f64 => 8

/-- The `alignment` helper inside `make` (src/memory.ts lines 407-412),
with JavaScript operator precedence applied: `&` binds looser than binary
`-`, so its body
`(curBytes + (alignment - 1)) & ~(alignment - 1) - curBytes`
parses as `(curBytes + (alignment - 1)) & (~(alignment - 1) - curBytes)`. -/
def alignment (curBytes : Int) (align : Int) : Int :=
  if curBytes = 0 then 0
  else jsAnd (curBytes + (align - 1)) (jsNot (align - 1) - curBytes)

/-- One ELEMENT_LAYOUT item: a scalar tag, or a `[tag, count]` tuple;
a bare scalar stands for count 1. -/
structure LayoutItem where
  tag : Tag
  cnt : Nat
  deriving Repr, DecidableEq

/-- First pass of `make` (src/memory.ts lines 416-465): for each item record
`(align, byte * cnt)` where `align = alignment(curBytes, BYTES_PER_ELEMENT)`,
accumulating `curBytes += align + byte * cnt`. -/
def makePass1 : List LayoutItem → Int → List (Int × Nat)
  | [], _ => []
  | item :: rest, curBytes =>
    let byte := BYTES_PER_ELEMENT item.tag
    let align := alignment curBytes (byte : Int)
    (align, byte * item.cnt) :: makePass1 rest (curBytes + align + (byte * item.cnt : Nat))

/-- Second pass of `make` (src/memory.ts lines 472-485): walk the recorded
`(align, bytes)` pairs advancing `byteOffset += align`, emit the typed view
at `byteOffset`, then advance `byteOffset += bytes`. -/
def makePass2 : List (Int × Nat) → Int → List Int
  | [], _ => []
  | (align, bytes) :: rest, byteOffset =>
    (byteOffset + align) :: makePass2 rest (byteOffset + align + (bytes : Int))

/-- The byte offset inside the single shared buffer at which `make` places
each layout item's typed view. -/
def makeViewOffsets (layout : List LayoutItem) : List Int :=
  makePass2 (makePass1 layout 0) 0

theorem land_two_pow_sub_one_sub (n : Nat) :
    ∀ r : Nat, r < 2 ^ n → r &&& (2 ^ n - 1 - r) = 0 := by
  induction n with
  | zero =>
    intro r hr
    have hr0 : r = 0 := by omega
    subst hr0
    decide
  | succ n ih =>
    intro r hr
    have hpow : 0 < 2 ^ n := Nat.two_pow_pos n
    have hsucc : 2 ^ (n + 1) = 2 * 2 ^ n := by
      rw [pow_succ]; ring
    have hdm := Nat.div_add_mod r 2
    have hqlt : r / 2 < 2 ^ n := by omega
    have hihq := ih (r / 2) hqlt
    rcases Nat.mod_two_eq_zero_or_one r with hb | hb
    · obtain ⟨q, hq⟩ : ∃ q, r = 2 * q := ⟨r / 2, by omega⟩
      subst hq
      have hqlt' : q < 2 ^ n := by omega
      have hs : 2 ^ (n + 1) - 1 - 2 * q = Nat.bit true (2 ^ n - 1 - q) := by
        simp only [Nat.bit, cond_true]
        omega
      have hr0 : 2 * q = Nat.bit false q := by
        simp [Nat.bit]
      rw [hs, hr0, Nat.land_bit]
      simp [Nat.bit, ih q hqlt']
    · obtain ⟨q, hq⟩ : ∃ q, r = 2 * q + 1 := ⟨r / 2, by omega⟩
      subst hq
      have hqlt' : q < 2 ^ n := by omega
      have hs : 2 ^ (n + 1) - 1 - (2 * q + 1) = Nat.bit false (2 ^ n - 1 - q) := by
        simp only [Nat.bit, cond_false]
        omega
      have hr0 : 2 * q + 1 = Nat.bit true q := by
        simp [Nat.bit]
      rw [hs, hr0, Nat.land_bit]
      simp [Nat.bit, ih q hqlt']

theorem alignment_eq_zero (curBytes m : Int) : alignment curBytes m = 0 := by
  by_cases hc : curBytes = 0
  · simp [alignment, hc]
  · have h32 : (2 : Int) ^ 32 = 4294967296 := by norm_num
    have h31 : (2 : Int) ^ 31 = 2147483648 := by norm_num
    have key : toUint32 (jsNot (m - 1) - curBytes)
        = 4294967295 - toUint32 (curBytes + (m - 1)) := by
      simp only [toUint32, toInt32, jsNot, h32, h31]
      omega
    have hA0 : 0 ≤ toUint32 (curBytes + (m - 1)) := by
      simp only [toUint32, h32]
      omega
    have hAlt : toUint32 (curBytes + (m - 1)) < 4294967296 := by
      simp only [toUint32, h32]
      omega
    have h32n : (2 : Nat) ^ 32 = 4294967296 := by norm_num
    have hland := land_two_pow_sub_one_sub 32 (toUint32 (curBytes + (m - 1))).toNat
      (by omega)
    rw [h32n] at hland
    have hBnat : (toUint32 (jsNot (m - 1) - curBytes)).toNat
        = 4294967296 - 1 - (toUint32 (curBytes + (m - 1))).toNat := by
      omega
    simp only [alignment, if_neg hc, jsAnd, hBnat]
    rw [hland]
    decide

end Make

/-- Claim C3 is REFUTED by the code: because `&` binds looser than binary `-`
in JavaScript, the `alignment` helper computes `x & (~(m-1) - curBytes)`,
whose second operand always equals the bitwise complement of
`x = curBytes + (m-1)`, so `alignment` returns 0 for every input and `make`
never inserts padding. For the mixed layout `['int8','int32']` the int32 view
is placed at byte offset 1, which is not divisible by its element width 4
(contradicting the claim and the code's own doc comment that alignment
padding is added automatically between types of different sizes). -/
theorem make_never_inserts_alignment_padding :
    (∀ curBytes m : Int, Make.alignment curBytes m = 0)
      ∧ Make.makeViewOffsets [⟨.int8, 1⟩, ⟨.int32, 1⟩] = [0, 1]
      ∧ ¬ ((4 : Int) ∣ 1) := by
  refine ⟨Make.alignment_eq_zero, ?_, by decide⟩
  have h := Make.alignment_eq_zero 1 4
  simp [Make.makeViewOffsets, Make.makePass1, Make.makePass2, Make.BYTES_PER_ELEMENT,
    Make.alignment_eq_zero]

/-- A JavaScript timeout value in milliseconds: `some t` is a finite number,
`none` is `Infinity`. `Number.isFinite(timeout)` is `Option.isSome`. -/
abbrev JTime := Option Int

/-- JS subtraction `timeout - elapsed`: `Infinity - e = Infinity`. -/
def JTime.sub (t : JTime) (e : Int) : JTime := t.map (fun x => x - e)

/-- JS comparison `timeout <= 0`: false for `Infinity`. -/
def JTime.nonPos : JTime → Bool
  | some t => decide (t ≤ 0)
  | none => false

namespace ConditionVariable

/-- What the caller of `ConditionVariable.wait` observes after the atomic
wait on `seq` returns. -/
inductive WaitOutcome where
  | timedOut
  | exhausted
  | reacquire (t : JTime)
  deriving Repr, DecidableEq

/-- The tail of `ConditionVariable.wait(mux, timeout)`
(src/conditionVariable.ts lines 84-98), from the atomic wait's return
onward: on 'timed-out' return false; then
`if (!Number.isFinite(timeout)) { timeout -= elapsed; if (timeout <= 0) return false }`;
finally `mux.lock(timeout)` with the current value of `timeout` and return
true. `reacquire t` records the timeout handed to `mux.lock`. -/
def waitTail (timeout : JTime) (elapsed : Int) (waitTimedOut : Bool) : WaitOutcome :=
  if waitTimedOut then .timedOut
  else if ¬ timeout.isSome then
    let t := JTime.sub timeout elapsed
    if JTime.nonPos t then .exhausted
    else .reacquire t
  else .reacquire timeout

end ConditionVariable

/-- Claim C4 is REFUTED by the code: `ConditionVariable.wait` guards its
elapsed-time decrement with `if (!Number.isFinite(timeout))`, the inverse of
the claimed finite-only decrement. For every finite timeout the mutex is
reacquired with the full original timeout, never the remainder; concretely,
with `timeout = 100` ms and 60 ms elapsed during a successful wait, the code
calls `mux.lock(100)` where the claim requires `mux.lock(40)`. (Only the
infinite timeout — where subtraction is a no-op — takes the decrement
branch.) -/
theorem conditionVariable_wait_skips_decrement_for_finite_timeout :
    (∀ (t e : Int),
      ConditionVariable.waitTail (some t) e false = .reacquire (some t))
      ∧ ConditionVariable.waitTail (some 100) 60 false = .reacquire (some 100)
      ∧ ConditionVariable.waitTail none 60 false = .reacquire none := by
  refine ⟨?_, rfl, rfl⟩
  intro t e
  simp [ConditionVariable.waitTail]

namespace Semaphore

/-- Atomic operations `Semaphore.acquire`/`release` perform on the shared
counter word, in execution order. -/
inductive Event where
  | cas (expected replacement : Int) (success : Bool)
  | wait (expected : Int) (timedOut : Bool)
  | sub (amt : Int)
  | notifyOne
  deriving Repr, DecidableEq

/-- Environment observations for one iteration of the `acquire` loop: the
value `atomicLoad` returned, the prior value `atomicCmpExch` would report
(other workers may race between the load and the exchange), whether
`atomicWait` timed out, and the wall-clock ms elapsed in the iteration. -/
structure Obs where
  loaded : Int
  casPrior : Int
  waitTimedOut : Bool
  elapsed : Int
  deriving Repr, DecidableEq

/-- `Semaphore.acquire(timeout)` (part_014 lines 88-113) run against a finite
list of iteration observations:
`do { val = load(); if (val < value && cmpExch(val, val+1) === val) return true;
if (wait(value, timeout) === 'timed-out') return false;
if (isFinite(timeout)) { timeout -= elapsed; if (timeout <= 0) return false } } while (true)`.
Result `none` means the observations ran out with the loop still spinning.
The second component is the trace of atomic events performed. -/
def casEvents (value : Int) (o : Obs) : List Event :=
  if o.loaded < value then
    [Event.cas o.loaded (o.loaded + 1) (decide (o.casPrior = o.loaded))]
  else []

/-- Events of one full loop iteration that fell through to the atomic wait:
the short-circuited `cmpExch` (only when `val < value`) followed by
`atomicWait(value, timeout)`. -/
def iterEvents (value : Int) (o : Obs) : List Event :=
  casEvents value o ++ [Event.wait value o.waitTimedOut]

def acquire (value : Int) : JTime → List Obs → Option Bool × List Event
  | _, [] => (none, [])
  | timeout, o :: rest =>
    if o.loaded < value ∧ o.casPrior = o.loaded then
      (some true, casEvents value o)
    else if o.waitTimedOut then (some false, iterEvents value o)
    else if timeout.isSome then
      if JTime.nonPos (JTime.sub timeout o.elapsed) then (some false, iterEvents value o)
      else
        let r := acquire value (JTime.sub timeout o.elapsed) rest
        (r.1, iterEvents value o ++ r.2)
    else
      let r := acquire value timeout rest
      (r.1, iterEvents value o ++ r.2)

/-- `Semaphore.release()` (part_014 lines 153-156): `atomicSub(1)` on the
counter word, then `atomicNotifyOne()`. -/
def release (word : Int) : Int × List Event :=
  (toInt32 (word - 1), [Event.sub 1, Event.notifyOne])

end Semaphore

theorem mem_casEvents {value : Int} {o : Semaphore.Obs} {e : Semaphore.Event}
    (he : e ∈ Semaphore.casEvents value o) :
    e = .cas o.loaded (o.loaded + 1) (decide (o.casPrior = o.loaded))
      ∧ o.loaded < value := by
  by_cases hlv : o.loaded < value
  · simp [Semaphore.casEvents, hlv] at he
    exact ⟨he, hlv⟩
  · simp [Semaphore.casEvents, hlv] at he

theorem mem_iterEvents {value : Int} {o : Semaphore.Obs} {e : Semaphore.Event}
    (he : e ∈ Semaphore.iterEvents value o) :
    (e = .cas o.loaded (o.loaded + 1) (decide (o.casPrior = o.loaded))
      ∧ o.loaded < value)
      ∨ e = .wait value o.waitTimedOut := by
  rcases List.mem_append.mp he with h | h
  · exact Or.inl (mem_casEvents h)
  · simp at h
    exact Or.inr h

/-- Claim C2: the Semaphore counter holds the number of currently-held
permits. `acquire(timeout)` returns true only by compare-exchanging the
counter from some loaded `c < value` to `c + 1`; every compare-exchange it
attempts is of that shape, and every atomic wait it performs waits on the
counter with expected value `value`. `release()` atomically subtracts 1 from
the counter word and then notifies one waiter. -/
theorem semaphore_counter_counts_held_permits :
    (∀ (value : Int) (obs : List Semaphore.Obs) (timeout : JTime),
      ((Semaphore.acquire value timeout obs).1 = some true →
        ∃ c, c < value
          ∧ ((Semaphore.acquire value timeout obs).2).getLast?
              = some (Semaphore.Event.cas c (c + 1) true))
      ∧ (∀ c r s,
          Semaphore.Event.cas c r s ∈ (Semaphore.acquire value timeout obs).2 →
            r = c + 1 ∧ c < value)
      ∧ (∀ x b,
          Semaphore.Event.wait x b ∈ (Semaphore.acquire value timeout obs).2 →
            x = value))
    ∧ (∀ w : Int,
        Semaphore.release w
          = (toInt32 (w - 1), [Semaphore.Event.sub 1, Semaphore.Event.notifyOne])) := by
  refine ⟨?_, fun w => rfl⟩
  intro value obs
  induction obs with
  | nil =>
    intro timeout
    refine ⟨?_, ?_, ?_⟩ <;> simp [Semaphore.acquire]
  | cons o rest ih =>
    intro timeout
    by_cases hsucc : o.loaded < value ∧ o.casPrior = o.loaded
    · have hd : decide (o.casPrior = o.loaded) = true := by
        simp [hsucc.2]
      refine ⟨?_, ?_, ?_⟩
      · intro _
        refine ⟨o.loaded, hsucc.1, ?_⟩
        simp [Semaphore.acquire, hsucc, Semaphore.casEvents, hsucc.1, hd]
      · intro c r s hmem
        simp only [Semaphore.acquire, if_pos hsucc] at hmem
        obtain ⟨he, hlt⟩ := mem_casEvents hmem
        rw [hd] at he
        cases he
        exact ⟨rfl, hlt⟩
      · intro x b hmem
        simp only [Semaphore.acquire, if_pos hsucc] at hmem
        obtain ⟨he, _⟩ := mem_casEvents hmem
        rw [hd] at he
        cases he
    · have hfrontCas : ∀ c r s,
          Semaphore.Event.cas c r s ∈ Semaphore.iterEvents value o →
            r = c + 1 ∧ c < value := by
        intro c r s hmem
        rcases mem_iterEvents hmem with ⟨he, hlt⟩ | he
        · cases he
          exact ⟨rfl, hlt⟩
        · cases he
      have hfrontWait : ∀ x b,
          Semaphore.Event.wait x b ∈ Semaphore.iterEvents value o → x = value := by
        intro x b hmem
        rcases mem_iterEvents hmem with ⟨he, _⟩ | he
        · cases he
        · cases he
          rfl
      by_cases hw : o.waitTimedOut
      · refine ⟨?_, ?_, ?_⟩
        · intro habs
          simp [Semaphore.acquire, hsucc, hw] at habs
        · intro c r s hmem
          simp only [Semaphore.acquire, if_neg hsucc, if_pos hw] at hmem
          exact hfrontCas c r s hmem
        · intro x b hmem
          simp only [Semaphore.acquire, if_neg hsucc, if_pos hw] at hmem
          exact hfrontWait x b hmem
      · by_cases hfin : timeout.isSome
        · by_cases hnp : JTime.nonPos (JTime.sub timeout o.elapsed)
          · refine ⟨?_, ?_, ?_⟩
            · intro habs
              simp [Semaphore.acquire, hsucc, hw, hfin, hnp] at habs
            · intro c r s hmem
              simp only [Semaphore.acquire, if_neg hsucc, if_neg hw, if_pos hfin,
                if_pos hnp] at hmem
              exact hfrontCas c r s hmem
            · intro x b hmem
              simp only [Semaphore.acquire, if_neg hsucc, if_neg hw, if_pos hfin,
                if_pos hnp] at hmem
              exact hfrontWait x b hmem
          · have hrec := ih (JTime.sub timeout o.elapsed)
            have heq : Semaphore.acquire value timeout (o :: rest)
                = ((Semaphore.acquire value (JTime.sub timeout o.elapsed) rest).1,
                  Semaphore.iterEvents value o
                    ++ (Semaphore.acquire value (JTime.sub timeout o.elapsed) rest).2) := by
              simp only [Semaphore.acquire, if_neg hsucc, if_neg hw, if_pos hfin,
                if_neg hnp]
            rw [heq]
            refine ⟨?_, ?_, ?_⟩
            · intro hres
              obtain ⟨c, hc, hlast⟩ := hrec.1 hres
              refine ⟨c, hc, ?_⟩
              have hne : (Semaphore.acquire value (JTime.sub timeout o.elapsed) rest).2 ≠ [] := by
                intro hnil
                rw [hnil] at hlast
                simp at hlast
              rw [List.getLast?_append_of_ne_nil _ hne]
              exact hlast
            · intro c r s hmem
              rcases List.mem_append.mp hmem with h | h
              · exact hfrontCas c r s h
              · exact hrec.2.1 c r s h
            · intro x b hmem
              rcases List.mem_append.mp hmem with h | h
              · exact hfrontWait x b h
              · exact hrec.2.2 x b h
        · have hrec := ih timeout
          have heq : Semaphore.acquire value timeout (o :: rest)
              = ((Semaphore.acquire value timeout rest).1,
                Semaphore.iterEvents value o
                  ++ (Semaphore.acquire value timeout rest).2) := by
            simp only [Semaphore.acquire, if_neg hsucc, if_neg hw, if_neg hfin]
          rw [heq]
          refine ⟨?_, ?_, ?_⟩
          · intro hres
            obtain ⟨c, hc, hlast⟩ := hrec.1 hres
            refine ⟨c, hc, ?_⟩
            have hne : (Semaphore.acquire value timeout rest).2 ≠ [] := by
              intro hnil
              rw [hnil] at hlast
              simp at hlast
            rw [List.getLast?_append_of_ne_nil _ hne]
            exact hlast
          · intro c r s hmem
            rcases List.mem_append.mp hmem with h | h
            · exact hfrontCas c r s h
            · exact hrec.2.1 c r s h
          · intro x b hmem
            rcases List.mem_append.mp hmem with h | h
            · exact hfrontWait x b h
            · exact hrec.2.2 x b h

/-- Closed-form check of claim C2 at a concrete input: a Semaphore of
capacity 1 whose counter reads 0 acquires immediately, the trace being the
single successful compare-exchange from 0 to 1. -/
theorem semaphore_counter_counts_held_permits_witness :
    (Semaphore.acquire 1 none [⟨0, 0, false, 0⟩]).1 = some true
      ∧ ∃ c, c < 1
        ∧ ((Semaphore.acquire 1 none [⟨0, 0, false, 0⟩]).2).getLast?
            = some (Semaphore.Event.cas c (c + 1) true) := by
  refine ⟨rfl, (semaphore_counter_counts_held_permits.1 1 [⟨0, 0, false, 0⟩] none).1 rfl⟩

/-- `toInt32` is the identity on values already in int32 range. -/
theorem toInt32_eq_self {n : Int} (h1 : -(2 ^ 31) ≤ n) (h2 : n < 2 ^ 31) :
    toInt32 n = n := by
  have h32 : (2 : Int) ^ 32 = 4294967296 := by norm_num
  have h31 : (2 : Int) ^ 31 = 2147483648 := by norm_num
  rw [h31] at h1 h2
  simp only [toInt32, h32, h31]
  omega

namespace Barrier

/-- The shared words of one Barrier that `wait` mutates (src/barrier.ts):
the count-down word at `stillNeededOffset` and the epoch word at
`eventOffset`, both int32 cells (the embedded mutex occupies the first cell
and serializes the critical sections modelled below). -/
structure ImplState where
  stillNeeded : Int
  epochSeq : Int
  deriving Repr, DecidableEq

/-- What one arrival at the barrier observably does after the critical
section: block on the epoch word with a snapshot value, or (as last arrival)
open a new epoch and wake everyone. -/
inductive Arrival where
  | waitOn (snapshot : Int)
  | releaseAll
  deriving Repr, DecidableEq

/-- The mutex-guarded body of `Barrier.wait` (src/barrier.ts lines 79-92):
`stillNeeded -= 1`; if still positive, snapshot `epochSeq`, unlock and
`Atomics.wait(epochSeq, snapshot)`; else `Atomics.add(epochSeq, 1)`, reset
`stillNeeded = maxNeeded`, `Atomics.notify(epochSeq)`, unlock. -/
def implWait (maxNeeded : Int) (s : ImplState) : ImplState × Arrival :=
  let dec := toInt32 (s.stillNeeded - 1)
  if 0 < dec then
    ({ s with stillNeeded := dec }, .waitOn s.epochSeq)
  else
    ({ stillNeeded := toInt32 maxNeeded, epochSeq := toInt32 (s.epochSeq + 1) },
      .releaseAll)

/-- State of the specification's count-up barrier: `numHit` arrivals so far
this epoch, plus the epoch word. -/
structure SpecState where
  numHit : Int
  epochSeq : Int
  deriving Repr, DecidableEq

/-- Modelled from the spec (§4.C.4), the second definition of the refinement
pair, written from the spec's words for comparison with `implWait`:
`numHit += 1; if numHit < maxNeeded: snapshot epochSeq, release, wait on the
snapshot; else atomicAdd(epochSeq, 1), numHit = 0, notifyAll(epochSeq)`.
The counters live in the same int32 shared memory, so writes wrap. -/
def specWait (maxNeeded : Int) (t : SpecState) : SpecState × Arrival :=
  let hit := toInt32 (t.numHit + 1)
  if hit < maxNeeded then
    ({ t with numHit := hit }, .waitOn t.epochSeq)
  else
    ({ numHit := 0, epochSeq := toInt32 (t.epochSeq + 1) }, .releaseAll)

/-- A sequence of `n` arrivals against the implementation barrier state. -/
def implRun (maxNeeded : Int) : ImplState → Nat → ImplState × List Arrival
  | s, 0 => (s, [])
  | s, n + 1 =>
    let r := implWait maxNeeded s
    let rr := implRun maxNeeded r.1 n
    (rr.1, r.2 :: rr.2)

/-- A sequence of `n` arrivals against the specification state. -/
def specRun (maxNeeded : Int) : SpecState → Nat → SpecState × List Arrival
  | t, 0 => (t, [])
  | t, n + 1 =>
    let r := specWait maxNeeded t
    let rr := specRun maxNeeded r.1 n
    (rr.1, r.2 :: rr.2)

theorem implWait_refines_specWait (maxNeeded : Int) (s : ImplState) (t : SpecState)
    (hmax1 : 1 ≤ maxNeeded) (hmax2 : maxNeeded ≤ 2 ^ 31 - 1)
    (hhit1 : 0 ≤ t.numHit) (hhit2 : t.numHit < maxNeeded)
    (hrel1 : s.stillNeeded = maxNeeded - t.numHit) (hrel2 : s.epochSeq = t.epochSeq) :
    (implWait maxNeeded s).2 = (specWait maxNeeded t).2
      ∧ (implWait maxNeeded s).1.stillNeeded
          = maxNeeded - (specWait maxNeeded t).1.numHit
      ∧ (implWait maxNeeded s).1.epochSeq = (specWait maxNeeded t).1.epochSeq
      ∧ 0 ≤ (specWait maxNeeded t).1.numHit
      ∧ (specWait maxNeeded t).1.numHit < maxNeeded := by
  have hdec : toInt32 (s.stillNeeded - 1) = maxNeeded - t.numHit - 1 := by
    rw [hrel1]
    exact toInt32_eq_self (by omega) (by omega)
  have hhitv : toInt32 (t.numHit + 1) = t.numHit + 1 := by
    exact toInt32_eq_self (by omega) (by omega)
  have hmaxv : toInt32 maxNeeded = maxNeeded := by
    exact toInt32_eq_self (by omega) (by omega)
  by_cases hlt : t.numHit + 1 < maxNeeded
  · have himpl : 0 < toInt32 (s.stillNeeded - 1) := by omega
    have hspec : toInt32 (t.numHit + 1) < maxNeeded := by omega
    simp only [implWait, specWait, if_pos himpl, if_pos hspec]
    refine ⟨?_, ?_, ?_, ?_, ?_⟩
    · rw [hrel2]
    · show toInt32 (s.stillNeeded - 1) = maxNeeded - toInt32 (t.numHit + 1)
      rw [hdec, hhitv]
      ring
    · exact hrel2
    · show (0 : Int) ≤ toInt32 (t.numHit + 1)
      omega
    · exact hspec
  · have himpl : ¬ 0 < toInt32 (s.stillNeeded - 1) := by omega
    have hspec : ¬ toInt32 (t.numHit + 1) < maxNeeded := by omega
    simp only [implWait, specWait, if_neg himpl, if_neg hspec]
    refine ⟨?_, ?_, ?_, ?_, ?_⟩
    · trivial
    · show toInt32 maxNeeded = maxNeeded - 0
      rw [hmaxv]
      ring
    · show toInt32 (s.epochSeq + 1) = toInt32 (t.epochSeq + 1)
      rw [hrel2]
    · exact le_refl 0
    · show (0 : Int) < maxNeeded
      omega

end Barrier

/-- Claim C8: Barrier.wait's count-down implementation over `stillNeeded` is
observationally equivalent to the spec's count-up algorithm over `numHit`
via the relation `stillNeeded = maxNeeded - numHit`: for any number of
arrivals the two produce identical sequences of observable outcomes (the same
snapshot waits and the same last-arrival releases), and the relation is
re-established after every epoch, giving reusability across epochs. -/
theorem barrier_countdown_refines_countup :
    ∀ (maxNeeded : Int) (n : Nat) (s : Barrier.ImplState) (t : Barrier.SpecState),
      1 ≤ maxNeeded → maxNeeded ≤ 2 ^ 31 - 1 →
      0 ≤ t.numHit → t.numHit < maxNeeded →
      s.stillNeeded = maxNeeded - t.numHit → s.epochSeq = t.epochSeq →
      (Barrier.implRun maxNeeded s n).2 = (Barrier.specRun maxNeeded t n).2
        ∧ (Barrier.implRun maxNeeded s n).1.stillNeeded
            = maxNeeded - (Barrier.specRun maxNeeded t n).1.numHit
        ∧ (Barrier.implRun maxNeeded s n).1.epochSeq
            = (Barrier.specRun maxNeeded t n).1.epochSeq := by
  intro maxNeeded n
  induction n with
  | zero =>
    intro s t _ _ _ _ hrel1 hrel2
    exact ⟨rfl, hrel1, hrel2⟩
  | succ n ih =>
    intro s t hmax1 hmax2 hhit1 hhit2 hrel1 hrel2
    obtain ⟨hobs, hrel1', hrel2', hhit1', hhit2'⟩ :=
      Barrier.implWait_refines_specWait maxNeeded s t hmax1 hmax2 hhit1 hhit2 hrel1 hrel2
    obtain ⟨hobsRest, hrelRest1, hrelRest2⟩ :=
      ih (Barrier.implWait maxNeeded s).1 (Barrier.specWait maxNeeded t).1
        hmax1 hmax2 hhit1' hhit2' hrel1' hrel2'
    refine ⟨?_, hrelRest1, hrelRest2⟩
    simp only [Barrier.implRun, Barrier.specRun]
    rw [hobs, hobsRest]

/-- Closed-form check of claim C8 at a concrete input: a 2-party barrier run
for 3 arrivals from a fresh epoch produces the same observable sequence in
both algorithms — first arrival waits on epoch 0, second releases all,
third waits on epoch 1 — and the refinement relation is re-established. -/
theorem barrier_countdown_refines_countup_witness :
    (Barrier.implRun 2 ⟨2, 0⟩ 3).2 = (Barrier.specRun 2 ⟨0, 0⟩ 3).2
      ∧ (Barrier.implRun 2 ⟨2, 0⟩ 3).2
          = [.waitOn 0, .releaseAll, .waitOn 1] := by
  have h := barrier_countdown_refines_countup 2 3 ⟨2, 0⟩ ⟨0, 0⟩
    (by norm_num) (by norm_num) (by norm_num) (by norm_num) (by norm_num) rfl
  refine ⟨h.1, ?_⟩
  decide

namespace WorkerClose

/-- Steps of the worker graceful-close path, in execution order. -/
inductive CloseEvent where
  | postClose
  | microDelay
  | pollSleep (attempt : Nat)
  | onCloseCall
  | terminate
  deriving Repr, DecidableEq

/-- The drain loop of `self.close` (part_014 lines 927-933):
`attempt = 0; while (messagesProcessing > 0 && attempt++ < maxAttempts) await sleep(100)`
with `maxAttempts = 10`. `mp k` is the value of `messagesProcessing` observed
at the loop's k-th condition check (in-flight handlers settle concurrently
while the timers run). -/
def pollLoop (mp : Nat → Nat) (k : Nat) : List CloseEvent :=
  if h : 0 < mp k ∧ k < 10 then CloseEvent.pollSleep k :: pollLoop mp (k + 1)
  else []
termination_by 10 - k

/-- The worker's `self.close` (part_014 lines 901-956), reached both from the
parent's `__close` message — whose dispatch branch calls `self.close()` — and
from a worker-initiated close. If already closing, do nothing (idempotence
guard); otherwise post `{__system:true, __close:true}` immediately, wait one
micro-delay (`setTimeout(res, 5)`), run the drain poll loop, call `onclose`
when defined (awaiting a promise-like result, errors swallowed), and finally
terminate through the saved `oldClose` in the `.finally` block. -/
def closePath (alreadyClosing : Bool) (mp : Nat → Nat) (hasOnClose : Bool) :
    List CloseEvent :=
  if alreadyClosing then []
  else
    CloseEvent.postClose :: CloseEvent.microDelay ::
      (pollLoop mp 0
        ++ (if hasOnClose then [CloseEvent.onCloseCall] else [])
        ++ [CloseEvent.terminate])

theorem pollLoop_spec :
    ∀ (n : Nat) (mp : Nat → Nat) (k : Nat), 10 - k = n →
      pollLoop mp k
          = (List.range (pollLoop mp k).length).map
              (fun j => CloseEvent.pollSleep (k + j))
        ∧ (pollLoop mp k).length ≤ 10 - k
        ∧ ((pollLoop mp k).length < 10 - k →
            mp (k + (pollLoop mp k).length) = 0) := by
  intro n
  induction n with
  | zero =>
    intro mp k hk
    have hk10 : ¬ k < 10 := by omega
    have hempty : pollLoop mp k = [] := by
      rw [pollLoop]
      simp [hk10]
    rw [hempty]
    refine ⟨by simp, by simp, ?_⟩
    intro hlt
    exact absurd hlt (by omega)
  | succ n ih =>
    intro mp k hk
    by_cases hcond : 0 < mp k ∧ k < 10
    · have hrec := ih mp (k + 1) (by omega)
      have hunfold : pollLoop mp k = CloseEvent.pollSleep k :: pollLoop mp (k + 1) := by
        rw [pollLoop]
        simp [hcond]
      rw [hunfold]
      refine ⟨?_, ?_, ?_⟩
      · simp only [List.length_cons]
        calc CloseEvent.pollSleep k :: pollLoop mp (k + 1)
            = CloseEvent.pollSleep k
              :: (List.range (pollLoop mp (k + 1)).length).map
                  (fun j => CloseEvent.pollSleep (k + 1 + j)) := by
                conv_lhs => rw [hrec.1]
          _ = (List.range ((pollLoop mp (k + 1)).length + 1)).map
                  (fun j => CloseEvent.pollSleep (k + j)) := by
                rw [List.range_succ_eq_map, List.map_cons, List.map_map]
                congr 1
                apply List.map_congr_left
                intro a _
                simp only [Function.comp_apply]
                congr 1
                omega
      · simp only [List.length_cons]
        have h2 := hrec.2.1
        omega
      · simp only [List.length_cons]
        intro hlt
        have hdrain := hrec.2.2 (by omega)
        have harith : k + ((pollLoop mp (k + 1)).length + 1)
            = k + 1 + (pollLoop mp (k + 1)).length := by omega
        rw [harith]
        exact hdrain
    · have hunfold : pollLoop mp k = [] := by
        rw [pollLoop]
        simp [hcond]
      rw [hunfold]
      refine ⟨by simp, by simp, ?_⟩
      intro hlt
      simp only [List.length_nil, Nat.add_zero]
      omega

end WorkerClose

/-- Claim C7: on the worker's graceful close path (parent `__close` message
or worker `self.close()`), the steps occur in order: post
`{__system:true, __close:true}` first, then after a micro-delay poll-wait up
to 10 iterations of 100 ms for `messagesProcessing` to reach 0, then call
`onclose` if defined, then terminate; and unless the poll budget of 10
iterations is exhausted, `messagesProcessing` is 0 when `onclose` runs —
previously dispatched handlers have settled. -/
theorem worker_close_path_order_and_drain :
    ∀ (mp : Nat → Nat) (hasOnClose : Bool),
      WorkerClose.closePath false mp hasOnClose
          = .postClose :: .microDelay ::
            (WorkerClose.pollLoop mp 0
              ++ (if hasOnClose then [.onCloseCall] else [])
              ++ [.terminate])
        ∧ WorkerClose.pollLoop mp 0
            = (List.range (WorkerClose.pollLoop mp 0).length).map .pollSleep
        ∧ (WorkerClose.pollLoop mp 0).length ≤ 10
        ∧ (((WorkerClose.pollLoop mp 0).length < 10
              ∧ mp ((WorkerClose.pollLoop mp 0).length) = 0)
            ∨ (WorkerClose.pollLoop mp 0).length = 10) := by
  intro mp hasOnClose
  have h := WorkerClose.pollLoop_spec 10 mp 0 rfl
  have hlen : (WorkerClose.pollLoop mp 0).length ≤ 10 := by
    have h2 := h.2.1
    omega
  refine ⟨rfl, ?_, hlen, ?_⟩
  · conv_lhs => rw [h.1]
    simp
  · rcases Nat.lt_or_ge (WorkerClose.pollLoop mp 0).length 10 with hlt | hge
    · left
      refine ⟨hlt, ?_⟩
      have hdrain := h.2.2 (by omega)
      simpa using hdrain
    · right
      omega

namespace Hydration

/-- A structured-clone JavaScript value as `hydrate` (src/thread.ts lines
213-255) sees it. `prim key v` stands for the live object a built-in
`X.hydrate(v)` switch case produces (Mutex, ConditionVariable, Address,
WaitGroup, Barrier, Semaphore); inputs are structured-clone data and never
contain such instances. -/
inductive JValue where
  | undef
  | null
  | bool (b : Bool)
  | num (n : Int)
  | str (s : String)
  | arr (xs : List JValue)
  | obj (fields : List (String × JValue))
  | prim (key : String) (v : JValue)

/-- JS property lookup on an object literal's field list. -/
def lookupField (fields : List (String × JValue)) (k : String) : Option JValue :=
  match fields with
  | [] => none
  | (k', v) :: rest => if k' = k then some v else lookupField rest k

/-- JS truthiness. -/
def truthy : JValue → Bool
  | .undef => false
  | .null => false
  | .bool b => b
  | .num n => decide (n ≠ 0)
  | .str s => decide (s ≠ "")
  | .arr _ => true
  | .obj _ => true
  | .prim _ _ => true

/-- A user registry entry as `hydrate` consumes it: the registered `key`,
whether it is the class form (has a `type` field, so the loop calls
`de.type.hydrate(obj, type)`) or the function form (has `isa`, so the loop
calls `de.hydrate(obj, type)`) — both receive the same two arguments — and
that hydrate function. The module pre-seeds the list with the `__ERROR`
entry before any user registration. -/
structure DeEntry where
  key : String
  classForm : Bool
  hydrateFn : JValue → String → JValue

/-- The sequence of `HYDRATION_KEY` strings handled by the built-in switch
at the top of `hydrate` (the `__ERROR` key is deliberately absent: Error
values flow through the registry loop). -/
def builtinSwitchKeys : List String :=
  ["__threads_Mutex", "__threads_ConditionVariable", "__threads_Address",
   "__threads_WaitGroup", "__threads_Barrier", "__threads_Semaphore"]

mutual

/-- `hydrate` (src/thread.ts lines 213-255 and part_014 lines 389-431),
parameterized by the current contents of `dehydrationKeys` (`keys`) and
`dehydrationList` (`reg`, whose head is the pre-seeded `__ERROR` entry).
Returns the hydrated value plus whether the unknown-key branch logged.
For a truthy `__dehydrated` object: a falsy `__type` returns the value
unchanged; a built-in key returns that primitive's hydrate of `__value`;
a key missing from `dehydrationKeys` logs and returns the value unchanged;
otherwise the registry loop `for (const de of dehydrationList)` returns
`de.type.hydrate(obj, type)` or `de.hydrate(obj, type)` for the FIRST entry
(every well-formed entry matches one of the two `in` tests, so no later
entry is ever reached), passing the whole object `obj`, not `obj.__value`.
Arrays and plain objects recurse; scalars pass through. -/
def hydrate (keys : List String) (reg : List DeEntry) : JValue → JValue × Bool
  | .obj fields =>
    if truthy ((lookupField fields "__dehydrated").getD .undef) then
      match lookupField fields "__type" with
      | some (.str tys) =>
        if tys = "" then (.obj fields, false)
        else if tys ∈ builtinSwitchKeys then
          (.prim tys ((lookupField fields "__value").getD .undef), false)
        else if tys ∉ keys then (.obj fields, true)
        else
          match reg with
          | de :: _ => (de.hydrateFn (.obj fields) tys, false)
          | [] => (.obj fields, false)
      | some tv =>
        if truthy tv then (.obj fields, true) else (.obj fields, false)
      | none => (.obj fields, false)
    else
      let rs := hydrateFields keys reg fields
      (.obj rs.1, rs.2)
  | .arr xs =>
    let rs := hydrateList keys reg xs
    (.arr rs.1, rs.2)
  | v => (v, false)

/-- Elementwise hydration of an array (`obj.map(hydrate)`). -/
def hydrateList (keys : List String) (reg : List DeEntry) :
    List JValue → List JValue × Bool
  | [] => ([], false)
  | x :: xs =>
    let r := hydrate keys reg x
    let rs := hydrateList keys reg xs
    (r.1 :: rs.1, r.2 || rs.2)

/-- In-place hydration of a plain object's own keys
(`for (const k of Object.keys(obj)) obj[k] = hydrate(obj[k])`). -/
def hydrateFields (keys : List String) (reg : List DeEntry) :
    List (String × JValue) → List (String × JValue) × Bool
  | [] => ([], false)
  | (k, v) :: rest =>
    let r := hydrate keys reg v
    let rs := hydrateFields keys reg rest
    ((k, r.1) :: rs.1, r.2 || rs.2)

end

end Hydration

/-- Claim C6 is REFUTED by the code: for a dehydrated value whose `__type` is
a registered non-built-in key, `hydrate` does not search for the entry whose
key matches `__type` — the registry loop returns on its FIRST entry (in the
real module, the pre-seeded `__ERROR` entry) no matter which key it carries,
and it passes the whole dehydrated wrapper object, not `__value`. Only the
unknown-key branch behaves as claimed (log and return the value unchanged).
Concretely, with entries keyed "A" then "B" registered, hydrating
`{__dehydrated:true, __type:"B", __value:7}` invokes entry "A"'s hydrate on
the wrapper instead of entry "B"'s hydrate on `7`. -/
theorem hydrate_runs_first_entry_with_wrapper_not_matching_key :
    (∀ (keys : List String) (e0 : Hydration.DeEntry) (rest : List Hydration.DeEntry)
        (fields : List (String × Hydration.JValue)) (ty : String),
      Hydration.truthy ((Hydration.lookupField fields "__dehydrated").getD .undef) = true →
      Hydration.lookupField fields "__type" = some (.str ty) →
      ty ≠ "" →
      ty ∉ Hydration.builtinSwitchKeys →
      ty ∈ keys →
      Hydration.hydrate keys (e0 :: rest) (.obj fields)
        = (e0.hydrateFn (.obj fields) ty, false))
    ∧ (∀ (keys : List String) (reg : List Hydration.DeEntry)
        (fields : List (String × Hydration.JValue)) (ty : String),
      Hydration.truthy ((Hydration.lookupField fields "__dehydrated").getD .undef) = true →
      Hydration.lookupField fields "__type" = some (.str ty) →
      ty ≠ "" →
      ty ∉ Hydration.builtinSwitchKeys →
      ty ∉ keys →
      Hydration.hydrate keys reg (.obj fields) = (.obj fields, true))
    ∧ Hydration.hydrate
        (Hydration.builtinSwitchKeys ++ ["__ERROR", "A", "B"])
        [⟨"A", false, fun v _ => .arr [.str "A", v]⟩,
         ⟨"B", false, fun v _ => .arr [.str "B", v]⟩]
        (.obj [("__dehydrated", .bool true), ("__type", .str "B"), ("__value", .num 7)])
        = (.arr [.str "A",
            .obj [("__dehydrated", .bool true), ("__type", .str "B"), ("__value", .num 7)]],
          false) := by
  refine ⟨?_, ?_, ?_⟩
  · intro keys e0 rest fields ty hdeh hty htyne htynb htyk
    rw [Hydration.hydrate]
    rw [hdeh, hty]
    simp [htyne, htynb, htyk]
  · intro keys reg fields ty hdeh hty htyne htynb htyk
    rw [Hydration.hydrate]
    rw [hdeh, hty]
    simp [htyne, htynb, htyk]
  · rw [Hydration.hydrate]
    simp [Hydration.lookupField, Hydration.truthy, Hydration.builtinSwitchKeys]

/-- Closed-form check for claim C6's dispatch theorem: at the concrete
two-entry registry, both the first-entry dispatch and the unknown-key path
evaluate as the theorem states. -/
theorem hydrate_runs_first_entry_with_wrapper_not_matching_key_witness :
    Hydration.hydrate
        (Hydration.builtinSwitchKeys ++ ["__ERROR", "A", "B"])
        [⟨"A", false, fun v _ => .arr [.str "A", v]⟩,
         ⟨"B", false, fun v _ => .arr [.str "B", v]⟩]
        (.obj [("__dehydrated", .bool true), ("__type", .str "B"), ("__value", .num 7)])
        = ((⟨"A", false, fun v _ => .arr [.str "A", v]⟩ : Hydration.DeEntry).hydrateFn
            (.obj [("__dehydrated", .bool true), ("__type", .str "B"), ("__value", .num 7)])
            "B", false)
      ∧ Hydration.hydrate
          (Hydration.builtinSwitchKeys ++ ["__ERROR", "A"])
          [⟨"A", false, fun v _ => .arr [.str "A", v]⟩]
          (.obj [("__dehydrated", .bool true), ("__type", .str "B"), ("__value", .num 7)])
          = (.obj [("__dehydrated", .bool true), ("__type", .str "B"), ("__value", .num 7)],
            true) := by
  constructor
  · exact hydrate_runs_first_entry_with_wrapper_not_matching_key.1
      (Hydration.builtinSwitchKeys ++ ["__ERROR", "A", "B"])
      ⟨"A", false, fun v _ => .arr [.str "A", v]⟩
      [⟨"B", false, fun v _ => .arr [.str "B", v]⟩]
      [("__dehydrated", .bool true), ("__type", .str "B"), ("__value", .num 7)]
      "B" (by rfl) (by rfl) (by decide)
      (by simp [Hydration.builtinSwitchKeys]) (by simp [Hydration.builtinSwitchKeys])
  · exact hydrate_runs_first_entry_with_wrapper_not_matching_key.2.1
      (Hydration.builtinSwitchKeys ++ ["__ERROR", "A"])
      [⟨"A", false, fun v _ => .arr [.str "A", v]⟩]
      [("__dehydrated", .bool true), ("__type", .str "B"), ("__value", .num 7)]
      "B" (by rfl) (by rfl) (by decide)
      (by simp [Hydration.builtinSwitchKeys]) (by simp [Hydration.builtinSwitchKeys])

namespace Messaging

/-- The fields of a system message envelope that the worker's error-reply
chain and the parent's `__shared` branch inspect. `some` marks a key as
present on the object (the worker tests presence with `in`, the parent with
`hasOwnProperty`). For `__shared`/`__transferd`, presence and value are
tracked separately (`Option (Option String)`) because the share-error reply
writes the `__shared` key with the JS value `undefined` (inner `none`). -/
structure Message where
  system : Bool := false
  threadId : Option String := none
  workId : Option String := none
  transfer : Option String := none
  share : Bool := false
  shareId : Option String := none
  init : Bool := false
  closeFlag : Bool := false
  sharedField : Option (Option String) := none
  transferdField : Option (Option String) := none
  initd : Option Bool := none
  rej : Option String := none
  errorField : Option String := none
  deriving Repr, DecidableEq

/-- The worker dispatcher's catch-block reply chain (part_014 lines
1096-1119 and src/thread.ts lines 868-881): when a handler throws for a
system message, reply by the first matching request field —
`workId` → `{workId, rej: err}`;
`transfer` → `{__transferd: e.data.transfer, __error: err}`;
`share` → `{__shared: e.data.transfer, rej: err}` (it reads `e.data.transfer`,
which a share request does not carry, and puts the error under `rej`);
`init` → `{__initd: false, __error: err}`;
`__close` → `sendError(err)`, i.e. a bare `{__error: err}`.
Non-system messages also get a bare `{__error: err}`. -/
def workerErrorReply (tid : String) (data : Message) (err : String) : Option Message :=
  if data.system then
    if data.workId.isSome then
      some { system := true, threadId := some tid, workId := data.workId, rej := some err }
    else if data.transfer.isSome then
      some { system := true, threadId := some tid,
             transferdField := some data.transfer, errorField := some err }
    else if data.share then
      some { system := true, threadId := some tid,
             sharedField := some data.transfer, rej := some err }
    else if data.init then
      some { system := true, threadId := some tid, initd := some false,
             errorField := some err }
    else if data.closeFlag then
      some { system := true, errorField := some err }
    else none
  else
    some { system := true, errorField := some err }

/-- What the parent's `__shared` branch does with a reply. -/
inductive SharedOutcome where
  | typeError
  | resolved
  | rejected (err : String)
  deriving Repr, DecidableEq

/-- The parent's `__shared` branch (src/thread.ts lines 420-433 and part_014
lines 624-636), taken when the reply has a `__shared` key: destructure
`workQueue[e.data.__shared]` — a TypeError when the id is `undefined` or not
a queued share id — then reject with `e.data.__error` when an `__error` key
is present, else resolve with null. `workQueue` is the list of queued
request ids. Returns `none` when the branch is not taken. -/
def parentOnShared (workQueue : List String) (reply : Message) :
    Option SharedOutcome :=
  match reply.sharedField with
  | none => none
  | some none => some .typeError
  | some (some id) =>
    if id ∈ workQueue then
      match reply.errorField with
      | some e => some (.rejected e)
      | none => some .resolved
    else some .typeError

end Messaging

/-- Claim C5 is REFUTED by the code: when `onshare` throws for a share
request carrying `shareId`, the worker's reply sets `__shared` to
`e.data.transfer` — a key a share request does not have, so the reply's
`__shared` is `undefined`, not the request's `shareId` — and transports the
error under `rej`, not `__error`. The parent's `__shared` branch therefore
cannot find the pending share (destructuring `workQueue[undefined]` throws a
TypeError), and even a correlated reply of this shape would be resolved, not
rejected, because the branch only rejects on an `__error` key. -/
theorem worker_share_error_reply_is_uncorrelated :
    (∀ (tid err : String) (data : Messaging.Message),
      data.system = true → data.workId = none → data.transfer = none →
      data.share = true →
      Messaging.workerErrorReply tid data err
        = some { system := true, threadId := some tid, sharedField := some none,
                 rej := some err })
    ∧ Messaging.workerErrorReply "main"
        { system := true, share := true, shareId := some "s1" } "boom"
        = some { system := true, threadId := some "main", sharedField := some none,
                 rej := some "boom" }
    ∧ Messaging.parentOnShared ["s1"]
        { system := true, threadId := some "main", sharedField := some none,
          rej := some "boom" }
        = some .typeError
    ∧ Messaging.parentOnShared ["s1"]
        { system := true, sharedField := some (some "s1"), rej := some "boom" }
        = some .resolved := by
  refine ⟨?_, by rfl, by rfl, by rfl⟩
  intro tid err data hsys hwork htrans hshare
  simp [Messaging.workerErrorReply, hsys, hwork, htrans, hshare]

/-- Closed-form check for claim C5's general conjunct: the share request
`{__system:true, shareId:"s1", share:...}` gets exactly the uncorrelated
reply shape. -/
theorem worker_share_error_reply_is_uncorrelated_witness :
    Messaging.workerErrorReply "w1"
        { system := true, share := true, shareId := some "s1" } "oops"
        = some { system := true, threadId := some "w1", sharedField := some none,
                 rej := some "oops" } :=
  worker_share_error_reply_is_uncorrelated.1 "w1" "oops"
    { system := true, share := true, shareId := some "s1" } rfl rfl rfl rfl
